import Mathlib

/-!
Shallow embedding of the sqlfluff reflow engine core
(src/sqlfluff/utils/reflow/sequence.py and src/sqlfluff/utils/reflow/reindent.py),
together with theorems settling the frozen claims about it.

Conventions of the embedding:
* Raw segments are flat leaves with a type tag; the external segment tree is
  represented by lists of raw leaves (the core only reads `raw_segments` of
  targets, so a `BaseSegment` argument is embedded as its list of raw leaves).
* Python exceptions become `Option`/`Except` results; assertion failures and
  index errors get dedicated error constructors.
* The logging side channel (`reflow_logger`) is ignored: the spec (§9) states
  it is an injectable diagnostic sink and not a correctness dependency, so the
  embedding drops the `debug`/`info` calls and the evaluation of their
  arguments.
* The depth map (`DepthMap`, depthmap.py) is bookkeeping for synthesizing new
  tokens; it does not influence the element arrays or fix lists that the
  claims are about, so the `copy_depth_info` / `get_depth_info` calls are
  dropped from the embedding.
* Functions from files absent from src (elements.py, rebreak.py, and the
  `lint_line_length` definition) are modelled from the spec; each such
  definition carries a doc comment starting with `Modelled from the spec:`.
-/

instance {ε α : Type _} [DecidableEq ε] [DecidableEq α] : DecidableEq (Except ε α) :=
  fun a b =>
    match a, b with
    | Except.ok x, Except.ok y =>
      if h : x = y then isTrue (by rw [h]) else isFalse (by intro hc; cases hc; exact h rfl)
    | Except.error x, Except.error y =>
      if h : x = y then isTrue (by rw [h]) else isFalse (by intro hc; cases hc; exact h rfl)
    | Except.ok _, Except.error _ => isFalse (by intro hc; cases hc)
    | Except.error _, Except.ok _ => isFalse (by intro hc; cases hc)

/-- Type tags of raw segments, as enumerated in spec §3. Indent and dedent
markers both answer to `is_type("indent")` in the source (Dedent subclasses
Indent); they are distinguished by the signed `indentVal`. -/
inductive SegType where
  | code
  | whitespace
  | newline
  | indent
  | comment
  | placeholder
  | templateLoop
  | endOfFile
  deriving DecidableEq, Repr

/-- A raw segment (leaf token). `indentVal` is the signed unit (+1 or -1) of an
indent marker and 0 otherwise; `blockUuid` is the correlating block identifier
of template markers; `consumedWhitespace` models the source string consumed by
a whitespace-only template placeholder. -/
structure Segment where
  segType : SegType
  raw : String
  indentVal : Int := 0
  blockUuid : Option Nat := none
  consumedWhitespace : Option String := none
  deriving DecidableEq, Repr

/-- Reflow elements: a `point` holds a run of spacing segments, a `block`
holds content segments (exactly one for blocks built `from_config`). -/
inductive ReflowElem where
  | point (segments : List Segment)
  | block (segments : List Segment)
  deriving DecidableEq, Repr

/-- The segments held by an element (`elem.segments` in the source). -/
def ReflowElem.segments : ReflowElem → List Segment
  | .point segs => segs
  | .block segs => segs

/-- Whether an element is a `ReflowPoint` (`isinstance(elem, ReflowPoint)`). -/
def ReflowElem.isPoint : ReflowElem → Bool
  | .point _ => true
  | .block _ => false

/-- An atomic edit against the original tree (`LintFix`). The `replace`
constructor carries the raw leaves of the replaced region and of the edit. -/
inductive LintFix where
  | delete (anchor : Segment)
  | createBefore (anchor : Segment) (edit : List Segment)
  | createAfter (anchor : Segment) (edit : List Segment)
  | replace (anchorRaws : List Segment) (edit : List Segment)
  deriving DecidableEq, Repr

/-- The slice of reflow configuration consumed by the embedded operations
(`ReflowConfig`): indent unit, tab width and maximum line length. The
`skip_indentation_in` entry is omitted: the `lint_indent_points` in src does
not accept it (see `ReflowSequence.reindent` below). -/
structure ReflowConfig where
  indent_unit : String
  tab_space_size : Nat
  max_line_length : Nat
  deriving DecidableEq, Repr

/-- Concatenated raw text of a run of segments. -/
def rawOfSegs (segs : List Segment) : String :=
  String.join (segs.map (fun s => s.raw))

/-- Python `str.isspace()`: nonempty and all characters whitespace. -/
def strIsSpace (s : String) : Bool :=
  !s.isEmpty && s.all Char.isWhitespace

/-- Python `n * s` on a string with an integer count (empty for `n ≤ 0`). -/
def strMul (s : String) (n : Int) : String :=
  String.join (List.replicate n.toNat s)

/-- Modelled from the spec: `get_consumed_whitespace` lives in elements.py,
which is not in src. It returns the whitespace consumed by a template
placeholder segment (spec §2.2/§4.2 note on literal placeholders for
whitespace-only strings), and `None` for other segments. -/
def get_consumed_whitespace (seg : Segment) : Option String :=
  if seg.segType = SegType.placeholder then seg.consumedWhitespace else none

/-- Loop of `ReflowSequence._elements_from_raw_segments`: buffer spacing
segments until a content segment closes a point. -/
def elementsFromRawGo : List Segment → List ReflowElem → List Segment → List ReflowElem
  | [], elemBuff, segBuff =>
    -- "If we ended with a buffer, apply it."
    if segBuff.isEmpty then elemBuff else elemBuff ++ [ReflowElem.point segBuff]
  | seg :: rest, elemBuff, segBuff =>
    if seg.segType = SegType.whitespace ∨ seg.segType = SegType.newline
        ∨ seg.segType = SegType.indent
        ∨ strIsSpace ((get_consumed_whitespace seg).getD "") = true then
      -- Add to the buffer and move on.
      elementsFromRawGo rest elemBuff (segBuff ++ [seg])
    else if ¬ elemBuff.isEmpty ∨ ¬ segBuff.isEmpty then
      -- There are elements: add a (possibly empty) point, then the block.
      elementsFromRawGo rest (elemBuff ++ [ReflowElem.point segBuff, ReflowElem.block [seg]]) []
    else
      elementsFromRawGo rest (elemBuff ++ [ReflowElem.block [seg]]) []

/-- `ReflowSequence._elements_from_raw_segments` (config/depth-map arguments
dropped: they only annotate blocks with spacing policy, which no claim uses). -/
def elements_from_raw_segments (segments : List Segment) : List ReflowElem :=
  elementsFromRawGo segments [] []

/-- `ReflowSequence._validate_reflow_sequence`: the element list is nonempty,
every even position has the class of `elements[0]` and every odd position the
other class (the `elements[::2]` / `elements[1::2]` checks). -/
def validate_reflow_sequence (elements : List ReflowElem) : Bool :=
  match elements with
  | [] => false
  | e0 :: _ =>
    (List.range elements.length).all fun i =>
      (elements.getD i e0).isPoint = (if i % 2 = 0 then e0.isPoint else ! e0.isPoint)

/-- A reflow sequence: the element array plus the accumulated fix list and the
configuration (root segment and depth map omitted, see the header comment). -/
structure ReflowSequence where
  elements : List ReflowElem
  reflow_config : ReflowConfig
  embodied_fixes : List LintFix
  deriving DecidableEq, Repr

/-- `ReflowSequence.__init__`: validation runs first; an invalid element array
is an assertion failure, embedded as `none`. -/
def ReflowSequence.make (elements : List ReflowElem) (cfg : ReflowConfig)
    (fixes : List LintFix) : Option ReflowSequence :=
  if validate_reflow_sequence elements then some ⟨elements, cfg, fixes⟩ else none

/-- `ReflowSequence._find_element_idx_with`: index of the first element whose
segments contain the target (a missing target raises `ValueError`). -/
def find_element_idx_with (elements : List ReflowElem) (target : Segment) : Option Nat :=
  elements.findIdx? (fun elem => decide (target ∈ elem.segments))

/-- `ReflowSequence.without`: remove a block, merging its neighbouring points.
Removal at either end of the sequence or of a point is a fatal
`NotImplementedError` (embedded as `none`). The resulting sequence carries
exactly the freshly generated deletion fix. -/
def ReflowSequence.without (s : ReflowSequence) (target : Segment) : Option ReflowSequence :=
  match find_element_idx_with s.elements target with
  | none => none
  | some removal_idx =>
    if removal_idx = 0 ∨ removal_idx = s.elements.length - 1 then none
    else if (s.elements.getD removal_idx (ReflowElem.point [])).isPoint then none
    else
      let merged_point := ReflowElem.point
        ((s.elements.getD (removal_idx - 1) (ReflowElem.point [])).segments
          ++ (s.elements.getD (removal_idx + 1) (ReflowElem.point [])).segments)
      ReflowSequence.make
        (s.elements.take (removal_idx - 1) ++ [merged_point] ++ s.elements.drop (removal_idx + 2))
        s.reflow_config
        [LintFix.delete target]

/-- `ReflowSequence.insert`: insert a content block (with an empty point
alongside) before or after an existing block. Spacing insertions, insertion
relative to a point, and an unknown `pos` are fatal errors (`none`). -/
def ReflowSequence.insert (s : ReflowSequence) (insertion : Segment) (target : Segment)
    (pos : String) : Option ReflowSequence :=
  if pos = "before" ∨ pos = "after" then
    match find_element_idx_with s.elements target with
    | none => none
    | some target_idx =>
      if insertion.segType = SegType.whitespace ∨ insertion.segType = SegType.indent
          ∨ insertion.segType = SegType.newline then none
      else if (s.elements.getD target_idx (ReflowElem.point [])).isPoint then none
      else if pos = "before" then
        ReflowSequence.make
          (s.elements.take target_idx
            ++ [ReflowElem.block [insertion], ReflowElem.point []]
            ++ s.elements.drop target_idx)
          s.reflow_config
          [LintFix.createBefore target [insertion]]
      else
        ReflowSequence.make
          (s.elements.take (target_idx + 1)
            ++ [ReflowElem.point [], ReflowElem.block [insertion]]
            ++ s.elements.drop (target_idx + 1))
          s.reflow_config
          [LintFix.createAfter target [insertion]]
  else none

/-- Index of the first occurrence of a segment in a raw list (`list.index`,
`ValueError` on a missing element becomes `none`). -/
def rawIndexOf (raws : List Segment) (target : Segment) : Option Nat :=
  raws.findIdx? (fun r => decide (r = target))

/-- `ReflowSequence.replace`: substitute a token region. The `target`
`BaseSegment` is embedded as its nonempty list of raw leaves and `edit` as its
flattened raw leaves; the element array is fully rebuilt from the flattened
leaf list. The resulting sequence carries exactly the freshly generated
replacement fix. -/
def ReflowSequence.replace (s : ReflowSequence) (target_raws : List Segment)
    (edit_raws : List Segment) : Option ReflowSequence :=
  match target_raws with
  | [] => none
  | t0 :: _ =>
    let tLast := target_raws.getLastD t0
    let current_raws := s.elements.foldr (fun e acc => e.segments ++ acc) []
    match rawIndexOf current_raws t0 with
    | none => none
    | some start_idx =>
      match rawIndexOf current_raws tLast with
      | none => none
      | some last_idx =>
        ReflowSequence.make
          (elements_from_raw_segments
            (current_raws.take start_idx ++ edit_raws ++ current_raws.drop (last_idx + 1)))
          s.reflow_config
          [LintFix.replace target_raws edit_raws]

/-- Modelled from the spec: `ReflowPoint.respace_point` lives in elements.py,
which is not in src. Spec §4.1: it recomputes horizontal spacing from the
adjacent blocks' policies and optionally strips line breaks to force
single-line rendering. The per-type spacing-policy table is external
configuration that is not in src, so only the newline-stripping behaviour is
modelled; the fix buffer is threaded through as in the source. -/
def respace_point (segs : List Segment) (_prev_block _next_block : Option ReflowElem)
    (fixes : List LintFix) (strip_newlines : Bool) : List LintFix × List Segment :=
  if strip_newlines && segs.any (fun s => decide (s.segType = SegType.newline)) then
    (fixes ++ (segs.filter (fun s => decide (s.segType = SegType.newline))).map LintFix.delete,
     segs.filter (fun s => decide (¬ s.segType = SegType.newline)))
  else (fixes, segs)

/-- Loop of `ReflowSequence.respace` over `_iter_points_with_constraints`:
respace every point, optionally resetting the result according to the filter,
and rebuild the element array from pre/point/post triples. -/
def respaceGo (all_elements : List ReflowElem) (strip_newlines : Bool) (filter : String) :
    List ReflowElem → Nat → List LintFix → List ReflowElem → List LintFix × List ReflowElem
  | [], _, fixes, new_elements => (fixes, new_elements)
  | elem :: rest, idx, fixes, new_elements =>
    match elem with
    | .block _ => respaceGo all_elements strip_newlines filter rest (idx + 1) fixes new_elements
    | .point segs =>
      let pre : Option ReflowElem := if idx > 0 then all_elements.get? (idx - 1) else none
      let post : Option ReflowElem := all_elements.get? (idx + 1)
      let res := respace_point segs pre post fixes strip_newlines
      -- We filter on the elements POST RESPACE (newline in the new point, or
      -- the point is followed by the end of file).
      let line_break_like :=
        res.2.any (fun s => decide (s.segType = SegType.newline))
          || (match post with
              | some p => p.segments.any (fun sg => decide (sg.segType = SegType.endOfFile))
              | none => false)
      let reset := if line_break_like then filter = "inline" else filter = "newline"
      let fixes2 := if reset then fixes else res.1
      let point2 := if reset then ReflowElem.point segs else ReflowElem.point res.2
      let ne1 := match pre with
        | some p =>
          if new_elements.isEmpty ∨ ¬ new_elements.getLastD (ReflowElem.point []) = p then
            new_elements ++ [p]
          else new_elements
        | none => new_elements
      let ne2 := ne1 ++ [point2] ++ (match post with | some p => [p] | none => [])
      respaceGo all_elements strip_newlines filter rest (idx + 1) fixes2 ne2

/-- `ReflowSequence.respace`: re-evaluate spacing at every point. The filter
must be one of `all`, `newline`, `inline` (assert, embedded as `none`). -/
def ReflowSequence.respace (s : ReflowSequence) (strip_newlines : Bool) (filter : String) :
    Option ReflowSequence :=
  if filter = "all" ∨ filter = "newline" ∨ filter = "inline" then
    let res := respaceGo s.elements strip_newlines filter s.elements 0 s.embodied_fixes []
    ReflowSequence.make res.2 s.reflow_config res.1
  else none

/-- Errors raised inside the reindent algorithm (reindent.py). -/
inductive ReindentError where
  /-- One of the assertions in `_revise_templated_lines` failed. -/
  | assertShape
  /-- `min()` was taken of an empty sequence (`ValueError`). -/
  | emptyMin
  /-- A local variable was read before assignment (`UnboundLocalError`); this
  is what actually happens on the not-found path of the "way up" search in
  `_evaluate_indent_point_buffer`, whose `NotImplementedError(...)` is built
  but never raised. -/
  | unboundLocal
  /-- A list was indexed out of range (`IndexError`). -/
  | indexError
  deriving DecidableEq, Repr

/-- Errors surfaced by the `ReflowSequence` mutators that run algorithms. -/
inductive ReflowError where
  /-- `NotImplementedError`: `rebreak`/`reindent` cannot handle pre-existing
  embodied fixes. -/
  | unflushedFixes
  /-- `SQLFluffUserError` from `construct_single_indent`. -/
  | userError
  /-- The reconstructed element array failed sequence validation. -/
  | invalidSequence
  /-- An error propagated from the reindent algorithm. -/
  | algo (e : ReindentError)
  deriving DecidableEq, Repr

/-- Transient record for one evaluated point (`_IndentPoint`). -/
structure IndentPoint where
  idx : Nat
  indent_impulse : Int
  indent_trough : Int
  initial_indent_balance : Int
  last_line_break_idx : Option Nat
  is_line_break : Bool
  untaken_indents : List Int
  deriving DecidableEq, Repr

/-- `_IndentPoint.closing_indent_balance`. -/
def IndentPoint.closing_indent_balance (ip : IndentPoint) : Int :=
  ip.initial_indent_balance + ip.indent_impulse

/-- Default used where the source indexes a list it assumes nonempty. -/
def dummyIndentPoint : IndentPoint := ⟨0, 0, 0, 0, none, false, []⟩

/-- Transient record for a line of indent points (`_IndentLine`); the balance
is revised in place for template/comment lines. -/
structure IndentLine where
  initial_indent_balance : Int
  indent_points : List IndentPoint
  deriving DecidableEq, Repr

/-- Python truthiness of an `Optional[int]`: `None` and `0` are falsy. The
source tests `if indent_points[-1].last_line_break_idx:` in two places, which
treats an index of 0 like `None`. -/
def optTruthy (o : Option Nat) : Bool :=
  match o with
  | none => false
  | some n => decide (n ≠ 0)

/-- `_IndentLine.from_points`: the starting balance is the closing balance of
the first point, or 0 for the edge case of the first line (truthiness test on
the last line-break index, as in the source). -/
def IndentLine.from_points (indent_points : List IndentPoint) : IndentLine :=
  let starting_balance :=
    if optTruthy ((indent_points.getLastD dummyIndentPoint).last_line_break_idx) then
      (indent_points.headD dummyIndentPoint).closing_indent_balance
    else 0
  ⟨starting_balance, indent_points⟩

/-- Auxiliary scan for `get_indent_impulse`: thread the running sum and the
minimum prefix sum over the segment run. -/
def impulseGo : List Segment → Int → Int → Int × Int
  | [], running, trough => (running, trough)
  | seg :: rest, running, trough =>
    let running' := if seg.segType = SegType.indent then running + seg.indentVal else running
    impulseGo rest running' (min trough running')

/-- Modelled from the spec: `ReflowPoint.get_indent_impulse` lives in
elements.py, which is not in src. Spec §4.1: impulse = sum of the marker
deltas of the run; trough = minimum prefix sum over the scan, starting at 0
and including the end value. -/
def get_indent_impulse (segs : List Segment) : Int × Int :=
  impulseGo segs 0 0

/-- Whether a point contains a newline segment (`"newline" in elem.class_types`). -/
def point_has_newline (segs : List Segment) : Bool :=
  segs.any (fun s => decide (s.segType = SegType.newline))

/-- Whether the element after index `idx` starts with an end-of-file segment
(`elements[idx + 1].segments[0].is_type("end_of_file")`). The source would
raise `IndexError` if `idx + 1` were out of range or the element empty; the
embedding answers `false` there (the guard is only consulted for interior
points of well-formed sequences, which end in an end-of-file block). -/
def next_is_end_of_file (elements : List ReflowElem) (idx : Nat) : Bool :=
  match elements.get? (idx + 1) with
  | some e =>
    match e.segments.head? with
    | some sg => decide (sg.segType = SegType.endOfFile)
    | none => false
  | none => false

/-- State of the crawl in `_crawl_indent_points`: the loop variables
`last_line_break_idx`, `indent_balance` and `untaken_indents`. -/
structure CrawlState where
  last_line_break_idx : Option Nat
  indent_balance : Int
  untaken_indents : List Int
  deriving DecidableEq, Repr

/-- The untaken positive steps registered after a non-line-break emission:
values `balance + 1 … balance + impulse` (empty for a nonpositive impulse). -/
def opened_indents (balance : Int) (impulse : Int) : List Int :=
  (List.range impulse.toNat).map (fun i => balance + (i : Int) + 1)

/-- One iteration of the `_crawl_indent_points` loop: emit at most one
`_IndentPoint` for the element and update the crawl state. Blocks leave the
state untouched; for points the balance always advances by the impulse and
untaken indents above the new balance are stripped. -/
def crawl_step (elements : List ReflowElem) (idx : Nat) (elem : ReflowElem)
    (st : CrawlState) : List IndentPoint × CrawlState :=
  match elem with
  | .block _ => ([], st)
  | .point segs =>
    let imp := get_indent_impulse segs
    -- emitted point, untaken indents before stripping, new last-line-break
    let branch : List IndentPoint × List Int × Option Nat :=
      if point_has_newline segs && !(st.last_line_break_idx = some idx : Bool) then
        ([⟨idx, imp.1, imp.2, st.indent_balance, st.last_line_break_idx, true,
            st.untaken_indents⟩],
         st.untaken_indents, some idx)
      else if !(imp.1 = 0 : Bool) || !(imp.2 = 0 : Bool) || (idx = 0 : Bool) then
        ([⟨idx, imp.1, imp.2, st.indent_balance, st.last_line_break_idx, false,
            st.untaken_indents⟩],
         st.untaken_indents ++ opened_indents st.indent_balance imp.1,
         st.last_line_break_idx)
      else if next_is_end_of_file elements idx then
        ([⟨idx, imp.1, imp.2, st.indent_balance, st.last_line_break_idx, true,
            st.untaken_indents⟩],
         st.untaken_indents, st.last_line_break_idx)
      else ([], st.untaken_indents, st.last_line_break_idx)
    let new_balance := st.indent_balance + imp.1
    (branch.1,
     ⟨branch.2.2, new_balance, branch.2.1.filter (fun x => decide (x ≤ new_balance))⟩)

/-- Recursion over the elements for `_crawl_indent_points`. -/
def crawlAux (elements : List ReflowElem) :
    List ReflowElem → Nat → CrawlState → List IndentPoint
  | [], _, _ => []
  | e :: rest, idx, st =>
    let r := crawl_step elements idx e st
    r.1 ++ crawlAux elements rest (idx + 1) r.2

/-- `_crawl_indent_points`: crawl through a reflow sequence, mapping existing
indents to a stream of `_IndentPoint` records. -/
def crawl_indent_points (elements : List ReflowElem) : List IndentPoint :=
  crawlAux elements elements 0 ⟨none, 0, []⟩

/-- The successive crawl states (the loop variables immediately after each
element is processed); blocks leave the state unchanged. -/
def crawlStatesAux (elements : List ReflowElem) :
    List ReflowElem → Nat → CrawlState → List CrawlState
  | [], _, _ => []
  | e :: rest, idx, st =>
    let st' := (crawl_step elements idx e st).2
    st' :: crawlStatesAux elements rest (idx + 1) st'

/-- All crawl states reached while crawling `elements`. -/
def crawl_states (elements : List ReflowElem) : List CrawlState :=
  crawlStatesAux elements elements 0 ⟨none, 0, []⟩

/-- Loop of `_map_line_buffers`: group the emitted indent points into lines,
splitting after each line break; a final buffer with more than one point
becomes a trailing line. -/
def mapLinesGo : List IndentPoint → List IndentLine → List IndentPoint → List IndentLine
  | [], lines, point_buffer =>
    if point_buffer.length > 1 then lines ++ [IndentLine.from_points point_buffer] else lines
  | ip :: rest, lines, point_buffer =>
    let pb := point_buffer ++ [ip]
    if ip.is_line_break then mapLinesGo rest (lines ++ [IndentLine.from_points pb]) [ip]
    else mapLinesGo rest lines pb

/-- `_map_line_buffers`: build the `_IndentLine` list from the crawl. -/
def map_line_buffers (elements : List ReflowElem) : List IndentLine :=
  mapLinesGo (crawl_indent_points elements) [] []

/-- A synthesized whitespace segment carrying the given raw text. -/
def wsSeg (s : String) : Segment := ⟨SegType.whitespace, s, 0, none, none⟩

/-- A synthesized newline segment. -/
def nlSeg : Segment := ⟨SegType.newline, "\n", 0, none, none⟩

/-- The segments of a point strictly after its last newline. -/
def segs_after_last_newline (segs : List Segment) : List Segment :=
  segs.foldl (fun acc s => if s.segType = SegType.newline then [] else acc ++ [s]) []

/-- The segments of a point up to and including its last newline. -/
def segs_up_to_last_newline (segs : List Segment) : List Segment :=
  segs.take (segs.length - (segs_after_last_newline segs).length)

/-- Modelled from the spec: `ReflowPoint.get_indent` lives in elements.py,
which is not in src. It returns the current leading whitespace of the line
started inside the point — the raw content after the point's last newline —
and `None` when the point contains no newline (it is then not an indent). -/
def get_indent (segs : List Segment) : Option String :=
  if point_has_newline segs then some (rawOfSegs (segs_after_last_newline segs)) else none

/-- Modelled from the spec: `ReflowPoint.indent_to` lives in elements.py,
which is not in src. Spec §4.1: it returns a new point whose whitespace
equals the desired string, plus fixes (delete/insert as needed) anchored
relative to the following token, and never touches non-spacing content. When
the point holds no newline the reindent algorithm uses it to force a line
break (spec §4.3 step 5), so a newline is inserted before the new indent. -/
def indent_to (segs : List Segment) (desired : String) (before : Segment) :
    List LintFix × List Segment :=
  if point_has_newline segs then
    let trailing := segs_after_last_newline segs
    if rawOfSegs trailing = desired then ([], segs)
    else
      let keep := segs_up_to_last_newline segs
      let deletions := trailing.map LintFix.delete
      if desired = "" then (deletions, keep)
      else (deletions ++ [LintFix.createBefore before [wsSeg desired]], keep ++ [wsSeg desired])
  else
    let inserted := [nlSeg] ++ (if desired = "" then [] else [wsSeg desired])
    ([LintFix.createBefore before inserted], segs ++ inserted)

/-- Resolution of `elements[idx + 1].segments[0]`, the anchor the evaluation
pass indents relative to (`IndexError` when absent). -/
def point_anchor (elements : List ReflowElem) (idx : Nat) : Except ReindentError Segment :=
  match elements.get? (idx + 1) with
  | some e =>
    match e.segments.head? with
    | some sg => Except.ok sg
    | none => Except.error ReindentError.indexError
  | none => Except.error ReindentError.indexError

/-- The `current_indent` computation at the head of
`_evaluate_indent_point_buffer` (source lines 448-453): the indent of the last
line break when there is one (Python truthiness, so a break at element index 0
counts as absent), else the raw of a leading point, else the empty string. -/
def current_indent_of (elements : List ReflowElem) (indent_line : IndentLine) : Option String :=
  match indent_line.indent_points with
  | [] => none
  | ip0 :: _ =>
    let ipLast := indent_line.indent_points.getLastD ip0
    if optTruthy ipLast.last_line_break_idx then
      get_indent ((elements.getD (ipLast.last_line_break_idx.getD 0) (ReflowElem.point [])).segments)
    else
      match elements.headD (ReflowElem.block []) with
      | .point segs => some (rawOfSegs segs)
      | .block _ => some ""

/-- `_IndentLine.desired_indent_units`: starting balance minus the relevant
untaken indents plus the forced indents; when the first point has a nonzero
trough, untaken indents above `balance - (impulse - trough)` are not relevant. -/
def IndentLine.desired_indent_units (line : IndentLine) (forced_indents : List Int) : Int :=
  let ip0 := line.indent_points.headD dummyIndentPoint
  let relevant_untaken_indents :=
    if ip0.indent_trough ≠ 0 then
      ip0.untaken_indents.filter
        (fun i => decide (i ≤ line.initial_indent_balance - (ip0.indent_impulse - ip0.indent_trough)))
    else ip0.untaken_indents
  line.initial_indent_balance - (relevant_untaken_indents.length : Int)
    + (forced_indents.length : Int)

/-- `_IndentLine._iter_block_segments`: the block segments of the line's
element slice (`slice(None, last.idx)` for an initial line — tested with
`is None`, not truthiness — else `slice(first.idx, last.idx)`). -/
def iter_block_segments (elements : List ReflowElem) (line : IndentLine) : List Segment :=
  let ipLast := line.indent_points.getLastD dummyIndentPoint
  let sliceStart :=
    match ipLast.last_line_break_idx with
    | none => 0
    | some _ => (line.indent_points.headD dummyIndentPoint).idx
  let sliced := (elements.drop sliceStart).take (ipLast.idx - sliceStart)
  sliced.foldr (fun e acc => match e with | .point _ => acc | .block segs => segs ++ acc) []

/-- `_IndentLine.is_all_comments`: there are block segments and all are comments. -/
def IndentLine.is_all_comments (line : IndentLine) (elements : List ReflowElem) : Bool :=
  let bs := iter_block_segments elements line
  !bs.isEmpty && bs.all (fun s => decide (s.segType = SegType.comment))

/-- `_IndentLine.is_all_templates`: there are block segments and all are
template placeholders or loop markers. -/
def IndentLine.is_all_templates (line : IndentLine) (elements : List ReflowElem) : Bool :=
  let bs := iter_block_segments elements line
  !bs.isEmpty
    && bs.all (fun s => decide (s.segType = SegType.placeholder ∨ s.segType = SegType.templateLoop))

/-- Backward walk of `_revise_templated_lines`: run back through a point's
segments, subtracting indent values, recording the balance after each step. -/
def stepsBackward : List Segment → Int → List Int
  | [], _ => []
  | seg :: rest, bal =>
    let bal' := if seg.segType = SegType.indent then bal - seg.indentVal else bal
    bal' :: stepsBackward rest bal'

/-- Forward walk of `_revise_templated_lines`: run forward through a point's
segments, adding indent values, recording the balance after each step. -/
def stepsForward : List Segment → Int → List Int
  | [], _ => []
  | seg :: rest, bal =>
    let bal' := if seg.segType = SegType.indent then bal + seg.indentVal else bal
    bal' :: stepsForward rest bal'

/-- The set of reachable balances for one line of a template group (the
`steps` set of `_revise_templated_lines`, as a list with duplicates allowed). -/
def line_steps (elements : List ReflowElem) (line : IndentLine) : List Int :=
  let start_point_idx := (line.indent_points.headD dummyIndentPoint).idx
  let segs := (elements.getD start_point_idx (ReflowElem.point [])).segments
  stepsBackward segs.reverse line.initial_indent_balance
    ++ stepsForward segs line.initial_indent_balance

/-- Default used where the source indexes the line list. -/
def dummyIndentLine : IndentLine := ⟨0, []⟩

/-- The template segment of an all-template line:
`elements[line.indent_points[-1].idx - 1].segments[0]`, with Python's negative
indexing when the point index is 0. -/
def template_segment_of (elements : List ReflowElem) (line : IndentLine) : Option Segment :=
  let j := (line.indent_points.getLastD dummyIndentPoint).idx
  (if j = 0 then elements.getLast? else elements.get? (j - 1)).bind
    (fun e => e.segments.head?)

/-- Append a line index to its block-uuid group, preserving first-appearance
order (the `defaultdict(list)` grouping of `_revise_templated_lines`). -/
def addToGroup : List (Nat × List Nat) → Nat → Nat → List (Nat × List Nat)
  | [], u, idx => [(u, [idx])]
  | (v, is') :: rest, u, idx =>
    if v = u then (v, is' ++ [idx]) :: rest else (v, is') :: addToGroup rest u idx

/-- Grouping pass of `_revise_templated_lines`: collect all-template lines by
block uuid, checking the shape assertions of the source along the way. -/
def templateGroupsGo (elements : List ReflowElem) :
    List IndentLine → Nat → List (Nat × List Nat) →
    Except ReindentError (List (Nat × List Nat))
  | [], _, acc => Except.ok acc
  | line :: rest, idx, acc =>
    if line.is_all_templates elements then
      -- assert len(line.indent_points) in (1, 2)
      if line.indent_points.length = 1 ∨ line.indent_points.length = 2 then
        -- assert last.idx - first.idx in (0, 2)
        if ((line.indent_points.getLastD dummyIndentPoint).idx : Int)
            - ((line.indent_points.headD dummyIndentPoint).idx : Int) = 0
            ∨ ((line.indent_points.getLastD dummyIndentPoint).idx : Int)
            - ((line.indent_points.headD dummyIndentPoint).idx : Int) = 2 then
          match template_segment_of elements line with
          | none => Except.error ReindentError.indexError
          | some sg =>
            -- assert segment.is_type("placeholder", "template_loop")
            if sg.segType = SegType.placeholder ∨ sg.segType = SegType.templateLoop then
              -- assert segment.block_uuid
              match sg.blockUuid with
              | some u => templateGroupsGo elements rest (idx + 1) (addToGroup acc u idx)
              | none => Except.error ReindentError.assertShape
            else Except.error ReindentError.assertShape
        else Except.error ReindentError.assertShape
      else Except.error ReindentError.assertShape
    else templateGroupsGo elements rest (idx + 1) acc

/-- The block-uuid groups of all-template lines. -/
def template_groups (elements : List ReflowElem) (lines : List IndentLine) :
    Except ReindentError (List (Nat × List Nat)) :=
  templateGroupsGo elements lines 0 []

/-- Set the balance of every group member line to `best` (the final mutation
of each `_revise_templated_lines` group iteration). -/
def setGroupBalances (lines : List IndentLine) (group_lines : List Nat) (best : Int) :
    List IndentLine :=
  lines.mapIdx (fun idx l =>
    if idx ∈ group_lines then { l with initial_indent_balance := best } else l)

/-- Remove one indent from all intervening non-member lines (case 3 of
`_revise_templated_lines`). -/
def decrementIntervening (lines : List IndentLine) (group_lines : List Nat)
    (first_line_idx last_line_idx : Nat) : List IndentLine :=
  lines.mapIdx (fun idx l =>
    if first_line_idx + 1 ≤ idx ∧ idx < last_line_idx ∧ idx ∉ group_lines then
      { l with initial_indent_balance := l.initial_indent_balance - 1 }
    else l)

/-- Body of the per-group loop of `_revise_templated_lines`. Case 1: all
member balances agree — no change. Otherwise compute each member's reachable
balances, limit them by the minimum balance of the lines strictly between the
first and last member (`min()` of an empty sequence raises `ValueError`), and
apply case 2 (minimum of the overlap) or case 3 (minimum of the members' own
balances, decrementing intervening lines). -/
def revise_one_group (elements : List ReflowElem) (lines : List IndentLine)
    (group_lines : List Nat) : Except ReindentError (List IndentLine) :=
  let balances := group_lines.map (fun i => (lines.getD i dummyIndentLine).initial_indent_balance)
  match balances with
  | [] => Except.ok lines
  | b :: bs =>
    -- Case 1: len(set(balances)) == 1
    if bs.all (fun x => decide (x = b)) then Except.ok lines
    else
      let options := group_lines.map (fun i => line_steps elements (lines.getD i dummyIndentLine))
      let first_line_idx := group_lines.headD 0
      let last_line_idx := group_lines.getLastD 0
      let intermediate := (lines.drop (first_line_idx + 1)).take (last_line_idx - (first_line_idx + 1))
      match intermediate.map (fun l => l.initial_indent_balance) with
      | [] =>
        -- min() arg is an empty sequence: ValueError
        Except.error ReindentError.emptyMin
      | ib :: ibs =>
        let limit_indent := ibs.foldl min ib
        let overlap :=
          match options with
          | [] => []
          | o :: os => o.filter (fun x => os.all (fun s => decide (x ∈ s)))
        -- Remove any options above the limit (minus one).
        let overlap2 := overlap.filter (fun i => decide (i ≤ limit_indent - 1))
        match overlap2 with
        | i :: is' =>
          let best_indent := is'.foldl min i
          Except.ok (setGroupBalances lines group_lines best_indent)
        | [] =>
          let best_indent := bs.foldl min b
          Except.ok
            (setGroupBalances (decrementIntervening lines group_lines first_line_idx last_line_idx)
              group_lines best_indent)

/-- Fold of `revise_one_group` over the groups, in first-appearance order. -/
def reviseGroupsGo (elements : List ReflowElem) :
    List (Nat × List Nat) → List IndentLine → Except ReindentError (List IndentLine)
  | [], lines => Except.ok lines
  | (_, gl) :: rest, lines =>
    match revise_one_group elements lines gl with
    | Except.error e => Except.error e
    | Except.ok lines' => reviseGroupsGo elements rest lines'

/-- `_revise_templated_lines`: group and revise template-only lines. -/
def revise_templated_lines (lines : List IndentLine) (elements : List ReflowElem) :
    Except ReindentError (List IndentLine) :=
  match template_groups elements lines with
  | Except.error e => Except.error e
  | Except.ok gs => reviseGroupsGo elements gs lines

/-- Loop of `_revise_comment_lines`: buffered comment-only lines take the
balance of the next non-comment line; a trailing run is anchored to balance 0. -/
def reviseCommentsGo (elements : List ReflowElem) (buffer : List IndentLine) :
    List IndentLine → List IndentLine
  | [] => buffer.map (fun l => { l with initial_indent_balance := 0 })
  | l :: rest =>
    if l.is_all_comments elements then reviseCommentsGo elements (buffer ++ [l]) rest
    else
      (buffer.map (fun b => { b with initial_indent_balance := l.initial_indent_balance }))
        ++ [l] ++ reviseCommentsGo elements [] rest

/-- `_revise_comment_lines`. -/
def revise_comment_lines (lines : List IndentLine) (elements : List ReflowElem) :
    List IndentLine :=
  reviseCommentsGo elements [] lines

/-- "Way down" loop of `_evaluate_indent_point_buffer`: for each non-final
point, skip line breaks, nonnegative impulses and negative jumps that were
untaken (and not forced); force a break at the rest. -/
def wayDownGo (single_indent : String) (forced_indents : List Int) :
    List IndentPoint → List ReflowElem → List LintFix →
    Except ReindentError (List ReflowElem × List LintFix)
  | [], elements, fixes => Except.ok (elements, fixes)
  | ip :: rest, elements, fixes =>
    -- Is line break, or positive indent?
    if ip.is_line_break ∨ ip.indent_impulse ≥ 0 then
      wayDownGo single_indent forced_indents rest elements fixes
    -- It's negative, is it untaken?
    else if ip.initial_indent_balance ∈ ip.untaken_indents
        ∧ ip.initial_indent_balance ∉ forced_indents then
      wayDownGo single_indent forced_indents rest elements fixes
    else
      let desired_indent := strMul single_indent
        (ip.closing_indent_balance - (ip.untaken_indents.length : Int)
          + (forced_indents.length : Int))
      match point_anchor elements ip.idx with
      | Except.error e => Except.error e
      | Except.ok anch =>
        let r := indent_to ((elements.getD ip.idx (ReflowElem.point [])).segments)
          desired_indent anch
        wayDownGo single_indent forced_indents rest
          (elements.set ip.idx (ReflowElem.point r.2)) (fixes ++ r.1)

/-- `_evaluate_indent_point_buffer`: evaluate a single line of indent points.
Returns the updated working element buffer, the new fixes, and the updated
forced-indents list (the source mutates the latter two in place). The
logging calls at the head of the source function are dropped (spec §9). -/
def evaluate_indent_point_buffer (elements : List ReflowElem) (indent_line : IndentLine)
    (single_indent : String) (forced_indents : List Int) :
    Except ReindentError (List ReflowElem × List LintFix × List Int) :=
  match indent_line.indent_points with
  | [] => Except.error ReindentError.indexError
  | ip0 :: _ =>
    let indent_points := indent_line.indent_points
    let starting_balance := indent_line.initial_indent_balance
    let ipLast := indent_points.getLastD ip0
    let current_indent := current_indent_of elements indent_line
    let desired_starting_indent :=
      strMul single_indent (indent_line.desired_indent_units forced_indents)
    let closing_balance := ipLast.closing_indent_balance
    -- First handle starting indent.
    let step1 : Except ReindentError (List ReflowElem × List LintFix) :=
      if current_indent ≠ some desired_starting_indent then
        -- Initial point gets special handling if it has no newlines.
        if ip0.idx = 0 ∧ ip0.is_line_break = false then
          Except.ok (elements.set ip0.idx (ReflowElem.point []),
            ((elements.getD ip0.idx (ReflowElem.point [])).segments).map LintFix.delete)
        else
          match point_anchor elements ip0.idx with
          | Except.error e => Except.error e
          | Except.ok anch =>
            let r := indent_to ((elements.getD ip0.idx (ReflowElem.point [])).segments)
              desired_starting_indent anch
            Except.ok (elements.set ip0.idx (ReflowElem.point r.2), r.1)
      else Except.ok (elements, [])
    match step1 with
    | Except.error e => Except.error e
    | Except.ok (elements1, fixes1) =>
      -- Then check for new lines. Either on the way up...
      if closing_balance > starting_balance then
        let closing_trough :=
          if ipLast.indent_trough ≠ 0 then
            ipLast.initial_indent_balance + ipLast.indent_trough
          else
            ipLast.initial_indent_balance + ipLast.indent_impulse
        if closing_trough ∈ ipLast.untaken_indents then
          match indent_points.find?
              (fun ip => decide (ip.closing_indent_balance = closing_trough)) with
          | none =>
            -- The source reaches the for-else here and evaluates
            -- `NotImplementedError("We should always find the relevant point.")`
            -- WITHOUT a `raise`; control then reads the never-assigned
            -- `target_point_idx`, so what surfaces is an UnboundLocalError.
            Except.error ReindentError.unboundLocal
          | some ip =>
            let desired_indent := strMul single_indent
              (ip.closing_indent_balance - (ip.untaken_indents.length : Int))
            match point_anchor elements1 ip.idx with
            | Except.error e => Except.error e
            | Except.ok anch =>
              let r := indent_to ((elements1.getD ip.idx (ReflowElem.point [])).segments)
                desired_indent anch
              -- Keep track of the indent we forced.
              Except.ok (elements1.set ip.idx (ReflowElem.point r.2), fixes1 ++ r.1,
                (forced_indents ++ [closing_balance]).filter
                  (fun i => decide (i ≤ closing_balance)))
        else
          Except.ok (elements1, fixes1,
            forced_indents.filter (fun i => decide (i ≤ closing_balance)))
      -- Or the way down.
      else if closing_balance < starting_balance then
        match wayDownGo single_indent forced_indents indent_points.dropLast elements1 fixes1 with
        | Except.error e => Except.error e
        | Except.ok (elements2, fixes2) =>
          Except.ok (elements2, fixes2,
            forced_indents.filter (fun i => decide (i ≤ closing_balance)))
      else
        Except.ok (elements1, fixes1,
          forced_indents.filter (fun i => decide (i ≤ closing_balance)))

/-- The line revisions performed by `lint_indent_points` before evaluation:
map the line buffers, revise templated lines, then revise comment lines. -/
def revised_lines (elements : List ReflowElem) : Except ReindentError (List IndentLine) :=
  match revise_templated_lines (map_line_buffers elements) elements with
  | Except.error e => Except.error e
  | Except.ok ls => Except.ok (revise_comment_lines ls elements)

/-- Evaluation loop of `lint_indent_points`: evaluate each line in order,
threading the working element buffer, the fix list and the forced indents. -/
def evalLines (single_indent : String) :
    List IndentLine → List ReflowElem → List LintFix → List Int →
    Except ReindentError (List ReflowElem × List LintFix)
  | [], elements, fixes, _forced => Except.ok (elements, fixes)
  | line :: rest, elements, fixes, forced =>
    match evaluate_indent_point_buffer elements line single_indent forced with
    | Except.error e => Except.error e
    | Except.ok (elements', new_fixes, forced') =>
      evalLines single_indent rest elements' (fixes ++ new_fixes) forced'

/-- `lint_indent_points`: map the line buffers, revise templated and comment
lines, then evaluate each line against a working copy of the elements. -/
def lint_indent_points (elements : List ReflowElem) (single_indent : String) :
    Except ReindentError (List ReflowElem × List LintFix) :=
  match revised_lines elements with
  | Except.error e => Except.error e
  | Except.ok ls => evalLines single_indent ls elements [] []

/-- `construct_single_indent`: a tab, `tab_space_size` spaces, or a
`SQLFluffUserError` for an unrecognized indent unit. -/
def construct_single_indent (indent_unit : String) (tab_space_size : Nat) :
    Except ReflowError String :=
  if indent_unit = "tab" then Except.ok "\t"
  else if indent_unit = "space" then Except.ok (String.join (List.replicate tab_space_size " "))
  else Except.error ReflowError.userError

/-- Rendered length of a line: the total raw length of the elements in the
line's slice (the same slice convention as `_iter_block_segments`). -/
def line_render_length (elements : List ReflowElem) (line : IndentLine) : Nat :=
  let ipLast := line.indent_points.getLastD dummyIndentPoint
  let sliceStart :=
    match ipLast.last_line_break_idx with
    | none => 0
    | some _ => (line.indent_points.headD dummyIndentPoint).idx
  let sliced := (elements.drop sliceStart).take (ipLast.idx - sliceStart)
  (sliced.map (fun e => (rawOfSegs e.segments).length)).sum

/-- One step of the modelled line-length pass: an over-long line gets a single
break inserted at its first non-line-break indent point, when one exists. -/
def lineLengthStep (single_indent : String) (line_length_limit : Nat)
    (acc : List ReflowElem × List LintFix) (line : IndentLine) :
    List ReflowElem × List LintFix :=
  if line_render_length acc.1 line ≤ line_length_limit then acc
  else
    match line.indent_points.dropLast.find? (fun ip => ! ip.is_line_break) with
    | none => acc
    | some ip =>
      match point_anchor acc.1 ip.idx with
      | Except.error _ => acc
      | Except.ok anch =>
        let desired := strMul single_indent line.initial_indent_balance
        let r := indent_to ((acc.1.getD ip.idx (ReflowElem.point [])).segments) desired anch
        (acc.1.set ip.idx (ReflowElem.point r.2), acc.2 ++ r.1)

/-- Modelled from the spec: the definition of `lint_line_length` is not in
src — sequence.py imports it from reindent.py (which here predates it) and
`ReflowSequence.reindent` calls it as its second pass. Spec §4.3 step 6: on
the now-correctly-indented sequence, insert additional breaks at permitted
points where a line exceeds the configured maximum length, reusing the same
point/line model. The spec leaves the exact break-selection policy open
(§9), so the minimal policy above is used; lines within the limit are left
untouched and contribute no fixes. The `root_segment` argument of the call
site is dropped (position lookups only). -/
def lint_line_length (elements : List ReflowElem) (single_indent : String)
    (line_length_limit : Nat) : List ReflowElem × List LintFix :=
  (map_line_buffers elements).foldl (lineLengthStep single_indent line_length_limit)
    (elements, [])

/-- Modelled from the spec: `rebreak_sequence` is defined in rebreak.py,
which is not in src (sequence.py imports and delegates to it). Spec §4.2: it
relocates existing breaks around specific token classes without inventing or
removing indentation, returning the adjusted element buffer and the fixes it
generated. The spec does not pin down the relocation policy, so the
policy-free instance (relocate nothing, no fixes) stands in; the properties
claimed about `rebreak` are decided by the surrounding checks in sequence.py
and by sequence validation, not by the relocation policy. -/
def rebreak_sequence (elements : List ReflowElem) : List ReflowElem × List LintFix :=
  (elements, [])

/-- `ReflowSequence.rebreak`: fatal `NotImplementedError` on pre-existing
embodied fixes, else delegate to the rebreak algorithm and rebuild. -/
def ReflowSequence.rebreak (s : ReflowSequence) : Except ReflowError ReflowSequence :=
  if s.embodied_fixes.isEmpty then
    let r := rebreak_sequence s.elements
    match ReflowSequence.make r.1 s.reflow_config r.2 with
    | some s' => Except.ok s'
    | none => Except.error ReflowError.invalidSequence
  else Except.error ReflowError.unflushedFixes

/-- `ReflowSequence.reindent`: fatal `NotImplementedError` on pre-existing
embodied fixes; otherwise construct the single indent, run the indent pass
(`lint_indent_points`) and then the line-length pass (`lint_line_length`) on
its output, and rebuild the sequence with the concatenated fixes. NOTE: the
call site in src passes `skip_indentation_in=...`, which the
`lint_indent_points` in src does not accept — the src snapshot of reindent.py
predates that parameter (as it predates `lint_line_length`), so the embedding
follows the reindent.py signature. -/
def ReflowSequence.reindent (s : ReflowSequence) : Except ReflowError ReflowSequence :=
  if s.embodied_fixes.isEmpty then
    match construct_single_indent s.reflow_config.indent_unit s.reflow_config.tab_space_size with
    | Except.error e => Except.error e
    | Except.ok single_indent =>
      match lint_indent_points s.elements single_indent with
      | Except.error e => Except.error (ReflowError.algo e)
      | Except.ok (elements, indent_fixes) =>
        let r := lint_line_length elements single_indent s.reflow_config.max_line_length
        match ReflowSequence.make r.1 s.reflow_config (indent_fixes ++ r.2) with
        | some s' => Except.ok s'
        | none => Except.error ReflowError.invalidSequence
  else Except.error ReflowError.unflushedFixes

/-- Concrete code segment used in the example sequences. -/
def segSELECT : Segment := ⟨SegType.code, "SELECT", 0, none, none⟩

/-- Concrete code segment used in the example sequences. -/
def segONE : Segment := ⟨SegType.code, "1", 0, none, none⟩

/-- Concrete end-of-file segment used in the example sequences. -/
def segEOF : Segment := ⟨SegType.endOfFile, "", 0, none, none⟩

/-- Concrete indent marker (+1) used in the example sequences. -/
def segIndent : Segment := ⟨SegType.indent, "", 1, none, none⟩

/-- Concrete example configuration. -/
def exConfig : ReflowConfig := ⟨"space", 4, 80⟩

/-- A correctly laid out one-line sequence: `SELECT 1` followed by
end-of-file. -/
def exElements : List ReflowElem :=
  [ReflowElem.block [segSELECT], ReflowElem.point [wsSeg " "], ReflowElem.block [segONE],
   ReflowElem.point [], ReflowElem.block [segEOF]]

/-- The correctly laid out example as a sequence with an empty fix buffer. -/
def exSequence : ReflowSequence := ⟨exElements, exConfig, []⟩

/-- A sequence opening an indent that is matched by an eventual line break:
`<+1 indent> 1 <eof>`.  The crawl registers the indent as untaken and carries
a balance of 1 past the first point. -/
def exIndentElements : List ReflowElem :=
  [ReflowElem.point [segIndent], ReflowElem.block [segONE],
   ReflowElem.point [], ReflowElem.block [segEOF]]

/-- Segments of the counterexample point for the crawl-registration claim:
a newline together with a +1 indent marker in one point. -/
def c7Segs : List Segment := [nlSeg, segIndent]

/-- Element array around the counterexample point. -/
def c7Elements : List ReflowElem := [ReflowElem.point c7Segs, ReflowElem.block [segONE]]

/-- First indent point of the crafted way-up line (closing balance 1). -/
def c9ipA : IndentPoint := ⟨1, 1, 0, 0, none, false, []⟩

/-- Last indent point of the crafted way-up line: closing balance 2 exceeds
the line's starting balance 0, the closing trough 1 + (-1) = 0 is recorded
as untaken, yet no point on the line has closing balance 0. -/
def c9ipB : IndentPoint := ⟨3, 1, -1, 1, none, false, [0]⟩

/-- The crafted line on which the way-up search cannot find its point. -/
def c9Line : IndentLine := ⟨0, [c9ipA, c9ipB]⟩

/-- A pre-existing fix, standing for the accumulated fix list `F`. -/
def priorFix : LintFix := LintFix.delete segSELECT

/-- The example sequence carrying a non-empty accumulated fix list. -/
def exSequenceWithFix : ReflowSequence := ⟨exElements, exConfig, [priorFix]⟩

/-- Two adjacent template-group member lines with distinct balances. -/
def c10Lines : List IndentLine := [⟨0, []⟩, ⟨1, []⟩]

/-- The total impulse an element contributes to the crawl balance: points
contribute their indent impulse, blocks contribute nothing. -/
def elemImpulse : ReflowElem → Int
  | .block _ => 0
  | .point segs => (get_indent_impulse segs).1

/-- Running sum of the impulses of the first `n` elements. -/
def impulses_before : List ReflowElem → Nat → Int
  | _, 0 => 0
  | [], _ + 1 => 0
  | e :: rest, n + 1 => elemImpulse e + impulses_before rest n

/-- Strict point/block alternation: no two adjacent elements of the same kind. -/
def Alternating (l : List ReflowElem) : Prop :=
  ∀ i a b, l.get? i = some a → l.get? (i + 1) = some b → ¬ a.isPoint = b.isPoint

/-- A line is already correctly laid out for the evaluation pass (with no
forced indents pending): its current leading whitespace equals the desired
starting indent, the way-up condition does not hold (the closing trough is
not an untaken indent when the balance rises), and on a falling balance every
non-final point is skipped by the way-down loop. This formalizes "reindent
would change nothing" line by line. -/
def lineIsCorrect (elements : List ReflowElem) (line : IndentLine)
    (single_indent : String) : Bool :=
  match line.indent_points with
  | [] => false
  | ip0 :: _ =>
    let ipLast := line.indent_points.getLastD ip0
    let closing_balance := ipLast.closing_indent_balance
    decide (current_indent_of elements line
        = some (strMul single_indent (line.desired_indent_units [])))
    && (if closing_balance > line.initial_indent_balance then
          let closing_trough :=
            if ipLast.indent_trough ≠ 0 then
              ipLast.initial_indent_balance + ipLast.indent_trough
            else ipLast.initial_indent_balance + ipLast.indent_impulse
          decide (closing_trough ∉ ipLast.untaken_indents)
        else true)
    && (if closing_balance < line.initial_indent_balance then
          line.indent_points.dropLast.all (fun ip =>
            ip.is_line_break || decide (ip.indent_impulse ≥ 0)
              || decide (ip.initial_indent_balance ∈ ip.untaken_indents))
        else true)

theorem listGetSomeLt {α : Type _} :
    ∀ (l : List α) (n : Nat) (a : α), l.get? n = some a → n < l.length := by
  intro l
  induction l with
  | nil => intro n a h; simp at h
  | cons x xs ih =>
    intro n a h
    cases n with
    | zero => simp
    | succ m => exact Nat.succ_lt_succ (ih m a h)

theorem listGetDOfGet? {α : Type _} :
    ∀ (l : List α) (n : Nat) (a d : α), l.get? n = some a → l.getD n d = a := by
  intro l n a d h
  rw [List.get?_eq_getElem?] at h
  simp [List.getD, h]

theorem dropConsGet? {α : Type _} :
    ∀ (l : List α) (idx : Nat) (e : α) (rest : List α),
      l.drop idx = e :: rest → l.get? idx = some e ∧ l.drop (idx + 1) = rest := by
  intro l
  induction l with
  | nil => intro idx e rest h; simp at h
  | cons x xs ih =>
    intro idx e rest h
    cases idx with
    | zero =>
      simp only [List.drop_zero] at h
      cases h
      exact ⟨rfl, by simp⟩
    | succ m =>
      simpa using ih m e rest (by simpa using h)

theorem make_some (elements : List ReflowElem) (cfg : ReflowConfig) (fixes : List LintFix)
    (s' : ReflowSequence) (h : ReflowSequence.make elements cfg fixes = some s') :
    s'.elements = elements ∧ s'.embodied_fixes = fixes
      ∧ validate_reflow_sequence elements = true := by
  unfold ReflowSequence.make at h
  split at h
  · simp only [Option.some.injEq] at h
    subst h
    exact ⟨rfl, rfl, by assumption⟩
  · cases h

theorem validate_alternating (l : List ReflowElem)
    (h : validate_reflow_sequence l = true) : Alternating l := by
  intro i a b ha hb
  match l, h, ha, hb with
  | e0 :: tl, h, ha, hb =>
    unfold validate_reflow_sequence at h
    rw [List.all_eq_true] at h
    have hia : i < (e0 :: tl).length := listGetSomeLt _ _ _ ha
    have hib : i + 1 < (e0 :: tl).length := listGetSomeLt _ _ _ hb
    have h1 := of_decide_eq_true (h i (by rwa [List.mem_range]))
    have h2 := of_decide_eq_true (h (i + 1) (by rwa [List.mem_range]))
    rw [listGetDOfGet? _ _ _ _ ha] at h1
    rw [listGetDOfGet? _ _ _ _ hb] at h2
    rcases Nat.mod_two_eq_zero_or_one i with hp | hp
    · have hp1 : ¬ (i + 1) % 2 = 0 := by omega
      rw [if_pos hp] at h1
      rw [if_neg hp1] at h2
      intro hab
      rw [h1, h2] at hab
      cases he : e0.isPoint <;> rw [he] at hab <;> exact Bool.noConfusion hab
    · have hp0 : ¬ i % 2 = 0 := by omega
      have hp1 : (i + 1) % 2 = 0 := by omega
      rw [if_neg hp0] at h1
      rw [if_pos hp1] at h2
      intro hab
      rw [h1, h2] at hab
      cases he : e0.isPoint <;> rw [he] at hab <;> exact Bool.noConfusion hab

theorem alternating_of_make (e : List ReflowElem) (cfg : ReflowConfig) (f : List LintFix)
    (s' : ReflowSequence) (h : ReflowSequence.make e cfg f = some s') :
    Alternating s'.elements := by
  obtain ⟨he, -, hv⟩ := make_some e cfg f s' h
  rw [he]
  exact validate_alternating e hv

theorem alternating_of_match_make (e : List ReflowElem) (cfg : ReflowConfig)
    (f : List LintFix) (s' : ReflowSequence)
    (h : (match ReflowSequence.make e cfg f with
          | some s'' => Except.ok s''
          | none => Except.error ReflowError.invalidSequence) = Except.ok s') :
    Alternating s'.elements := by
  cases hmk : ReflowSequence.make e cfg f with
  | none => rw [hmk] at h; simp at h
  | some s'' =>
    rw [hmk] at h
    simp only [Except.ok.injEq] at h
    subst h
    exact alternating_of_make _ _ _ _ hmk

/-- C4: every sequence produced by any of the mutators `without`, `insert`,
`replace`, `respace`, `rebreak` and `reindent` has a strictly alternating
element array: no two adjacent elements are of the same kind. -/
theorem c4_mutators_alternate :
    (∀ (s : ReflowSequence) (t : Segment) (s' : ReflowSequence),
        s.without t = some s' → Alternating s'.elements)
    ∧ (∀ (s : ReflowSequence) (ins t : Segment) (pos : String) (s' : ReflowSequence),
        s.insert ins t pos = some s' → Alternating s'.elements)
    ∧ (∀ (s : ReflowSequence) (traws eraws : List Segment) (s' : ReflowSequence),
        s.replace traws eraws = some s' → Alternating s'.elements)
    ∧ (∀ (s : ReflowSequence) (strip : Bool) (filter : String) (s' : ReflowSequence),
        s.respace strip filter = some s' → Alternating s'.elements)
    ∧ (∀ (s : ReflowSequence) (s' : ReflowSequence),
        s.rebreak = Except.ok s' → Alternating s'.elements)
    ∧ (∀ (s : ReflowSequence) (s' : ReflowSequence),
        s.reindent = Except.ok s' → Alternating s'.elements) := by
  refine ⟨?_, ?_, ?_, ?_, ?_, ?_⟩
  · intro s t s' h
    unfold ReflowSequence.without at h
    repeat' split at h
    all_goals first
      | exact alternating_of_make _ _ _ _ h
      | simp at h
  · intro s ins t pos s' h
    unfold ReflowSequence.insert at h
    repeat' split at h
    all_goals first
      | exact alternating_of_make _ _ _ _ h
      | simp at h
  · intro s traws eraws s' h
    unfold ReflowSequence.replace at h
    split at h
    · simp at h
    · rename_i t0 tl
      dsimp only at h
      cases h1 : rawIndexOf (List.foldr (fun e acc => e.segments ++ acc) [] s.elements) t0 with
      | none => rw [h1] at h; simp at h
      | some start_idx =>
        rw [h1] at h
        dsimp only at h
        cases h2 : rawIndexOf (List.foldr (fun e acc => e.segments ++ acc) [] s.elements)
            ((t0 :: tl).getLastD t0) with
        | none => rw [h2] at h; simp at h
        | some last_idx =>
          rw [h2] at h
          exact alternating_of_make _ _ _ _ h
  · intro s strip filter s' h
    unfold ReflowSequence.respace at h
    repeat' split at h
    all_goals first
      | exact alternating_of_make _ _ _ _ h
      | simp at h
  · intro s s' h
    unfold ReflowSequence.rebreak at h
    repeat' split at h
    all_goals first
      | exact alternating_of_match_make _ _ _ _ h
      | simp at h
  · intro s s' h
    unfold ReflowSequence.reindent at h
    repeat' split at h
    all_goals first
      | exact alternating_of_match_make _ _ _ _ h
      | simp at h

theorem c4_mutators_alternate_witness :
    Alternating [ReflowElem.block [segSELECT], ReflowElem.point [wsSeg " "],
      ReflowElem.block [segEOF]] :=
  c4_mutators_alternate.1 exSequence segONE
    ⟨[ReflowElem.block [segSELECT], ReflowElem.point [wsSeg " "], ReflowElem.block [segEOF]],
      exConfig, [LintFix.delete segONE]⟩ (by decide)

theorem crawl_step_emit (elements : List ReflowElem) (idx : Nat) (e : ReflowElem)
    (st : CrawlState) :
    ∀ ip ∈ (crawl_step elements idx e st).1,
      ip.idx = idx ∧ ip.initial_indent_balance = st.indent_balance := by
  intro ip hip
  cases e with
  | block segs => simp [crawl_step] at hip
  | point segs =>
    unfold crawl_step at hip
    dsimp only at hip
    repeat' split at hip
    all_goals simp at hip
    all_goals subst hip
    all_goals exact ⟨rfl, rfl⟩

theorem crawl_step_balance (elements : List ReflowElem) (idx : Nat) (e : ReflowElem)
    (st : CrawlState) :
    (crawl_step elements idx e st).2.indent_balance = st.indent_balance + elemImpulse e := by
  cases e with
  | block segs => simp [crawl_step, elemImpulse]
  | point segs => rfl

theorem impulses_before_succ :
    ∀ (elements : List ReflowElem) (idx : Nat) (e : ReflowElem),
      elements.get? idx = some e →
      impulses_before elements (idx + 1) = impulses_before elements idx + elemImpulse e := by
  intro elements
  induction elements with
  | nil => intro idx e h; simp at h
  | cons x xs ih =>
    intro idx e h
    cases idx with
    | zero =>
      simp only [List.get?] at h
      cases h
      simp [impulses_before]
    | succ m =>
      have hrec := ih m e (by simpa using h)
      simp only [impulses_before]
      omega

theorem crawl_aux_balances (elements : List ReflowElem) :
    ∀ (rest : List ReflowElem) (idx : Nat) (st : CrawlState),
      elements.drop idx = rest →
      st.indent_balance = impulses_before elements idx →
      ∀ ip ∈ crawlAux elements rest idx st,
        ip.initial_indent_balance = impulses_before elements ip.idx := by
  intro rest
  induction rest with
  | nil => intro idx st _ _ ip hip; simp [crawlAux] at hip
  | cons e rest' ih =>
    intro idx st hdrop hbal ip hip
    obtain ⟨hget, hdrop'⟩ := dropConsGet? elements idx e rest' hdrop
    unfold crawlAux at hip
    dsimp only at hip
    rw [List.mem_append] at hip
    rcases hip with hip | hip
    · obtain ⟨hidx, hb⟩ := crawl_step_emit elements idx e st ip hip
      rw [hidx, hb, hbal]
    · exact ih (idx + 1) _ hdrop'
        (by rw [crawl_step_balance, hbal, impulses_before_succ elements idx e hget]) ip hip

/-- C5: every indent point emitted by the crawl records as its
`initial_indent_balance` exactly the running sum of the impulses of all points
at element indices strictly before its own index, starting from 0 (blocks
contribute no impulse). Hence the balance after a point is the balance before
it plus that point's impulse. -/
theorem c5_balance_conservation (elements : List ReflowElem) (ip : IndentPoint)
    (h : ip ∈ crawl_indent_points elements) :
    ip.initial_indent_balance = impulses_before elements ip.idx :=
  crawl_aux_balances elements elements 0 ⟨none, 0, []⟩ rfl (by cases elements <;> rfl) ip h

theorem c5_balance_conservation_witness :
    (⟨2, 0, 0, 1, none, true, [1]⟩ : IndentPoint).initial_indent_balance
      = impulses_before exIndentElements 2 :=
  c5_balance_conservation exIndentElements ⟨2, 0, 0, 1, none, true, [1]⟩ (by decide)

theorem crawl_step_preserves_bound (elements : List ReflowElem) (idx : Nat)
    (e : ReflowElem) (st : CrawlState)
    (h : ∀ u ∈ st.untaken_indents, u ≤ st.indent_balance) :
    ∀ u ∈ (crawl_step elements idx e st).2.untaken_indents,
      u ≤ (crawl_step elements idx e st).2.indent_balance := by
  cases e with
  | block segs => simpa [crawl_step] using h
  | point segs =>
    intro u hu
    unfold crawl_step at hu ⊢
    dsimp only at hu ⊢
    rw [List.mem_filter] at hu
    exact of_decide_eq_true hu.2

theorem crawl_states_aux_bound (elements : List ReflowElem) :
    ∀ (rest : List ReflowElem) (idx : Nat) (st : CrawlState),
      (∀ u ∈ st.untaken_indents, u ≤ st.indent_balance) →
      ∀ s ∈ crawlStatesAux elements rest idx st,
        ∀ u ∈ s.untaken_indents, u ≤ s.indent_balance := by
  intro rest
  induction rest with
  | nil => intro idx st _ s hs; simp [crawlStatesAux] at hs
  | cons e rest' ih =>
    intro idx st hst s hs
    unfold crawlStatesAux at hs
    dsimp only at hs
    rw [List.mem_cons] at hs
    rcases hs with hs | hs
    · subst hs; exact crawl_step_preserves_bound elements idx e st hst
    · exact ih (idx + 1) _ (crawl_step_preserves_bound elements idx e st hst) s hs

/-- C6: at every step of the crawl, immediately after the balance and the
untaken-indent set have been updated for an element, every value in the
untaken-indent set is at most the updated balance. -/
theorem c6_untaken_pruned (elements : List ReflowElem) (st : CrawlState)
    (h : st ∈ crawl_states elements) :
    ∀ u ∈ st.untaken_indents, u ≤ st.indent_balance :=
  crawl_states_aux_bound elements elements 0 ⟨none, 0, []⟩ (by simp) st h

theorem c6_untaken_pruned_witness :
    (1 : Int) ≤ (⟨none, 1, [1]⟩ : CrawlState).indent_balance :=
  c6_untaken_pruned exIndentElements ⟨none, 1, [1]⟩ (by decide) 1 (by decide)

/-- C7 (amended): after every emission the balance advances by the point's
impulse and untaken values above the new balance are pruned; but the untaken
registration of the newly opened positive steps (old balance + 1 … old
balance + impulse) happens exactly for the emissions with
`is_line_break = false` (nonzero impulse/trough or the very first point) —
line-break and end-of-input emissions register nothing. -/
theorem c7_crawl_step_registration (elements : List ReflowElem) (idx : Nat)
    (segs : List Segment) (st : CrawlState) (emitted : List IndentPoint)
    (st' : CrawlState)
    (h : crawl_step elements idx (ReflowElem.point segs) st = (emitted, st')) :
    st'.indent_balance = st.indent_balance + (get_indent_impulse segs).1
    ∧ ∀ ip ∈ emitted,
        (ip.is_line_break = false →
          st'.untaken_indents
            = (st.untaken_indents
                ++ opened_indents st.indent_balance (get_indent_impulse segs).1).filter
                (fun x => decide (x ≤ st.indent_balance + (get_indent_impulse segs).1)))
        ∧ (ip.is_line_break = true →
          st'.untaken_indents
            = st.untaken_indents.filter
                (fun x => decide (x ≤ st.indent_balance + (get_indent_impulse segs).1))) := by
  unfold crawl_step at h
  dsimp only at h
  repeat' split at h
  all_goals simp only [Prod.mk.injEq] at h
  all_goals obtain ⟨hem, hst⟩ := h
  all_goals subst hem
  all_goals subst hst
  all_goals refine ⟨rfl, ?_⟩
  all_goals intro ip hip
  all_goals simp at hip
  all_goals try subst hip
  all_goals constructor
  all_goals intro hlb
  all_goals first
    | rfl
    | exact Bool.noConfusion hlb

theorem c7_crawl_step_registration_witness :
    (⟨none, 1, [1]⟩ : CrawlState).untaken_indents
      = (([] : List Int) ++ opened_indents 0 (get_indent_impulse [segIndent]).1).filter
          (fun x => decide (x ≤ 0 + (get_indent_impulse [segIndent]).1)) :=
  ((c7_crawl_step_registration exIndentElements 0 [segIndent] ⟨none, 0, []⟩
      [⟨0, 1, 0, 0, none, false, []⟩] ⟨none, 1, [1]⟩ (by decide)).2
    ⟨0, 1, 0, 0, none, false, []⟩ (by decide)).1 rfl

theorem c7_registration_counterexample :
    (crawl_step c7Elements 0 (ReflowElem.point c7Segs) ⟨none, 0, []⟩).1
        = [⟨0, 1, 0, 0, none, true, []⟩]
    ∧ (get_indent_impulse c7Segs).1 = 1
    ∧ (1 : Int) ∉ (crawl_step c7Elements 0 (ReflowElem.point c7Segs) ⟨none, 0, []⟩).2.untaken_indents := by
  decide

/-- C1 (amended): each of `without`, `insert` and `replace`, when it
succeeds, returns a sequence whose accumulated fix list consists of exactly
the mutator's newly generated fix — any fixes already accumulated on the
input sequence are discarded, not retained. -/
theorem c1_mutator_fixes_amended :
    (∀ (s : ReflowSequence) (target : Segment) (s' : ReflowSequence),
        s.without target = some s' → s'.embodied_fixes = [LintFix.delete target])
    ∧ (∀ (s : ReflowSequence) (ins target : Segment) (pos : String) (s' : ReflowSequence),
        s.insert ins target pos = some s' →
          s'.embodied_fixes = if pos = "before" then [LintFix.createBefore target [ins]]
            else [LintFix.createAfter target [ins]])
    ∧ (∀ (s : ReflowSequence) (traws eraws : List Segment) (s' : ReflowSequence),
        s.replace traws eraws = some s' →
          s'.embodied_fixes = [LintFix.replace traws eraws]) := by
  refine ⟨?_, ?_, ?_⟩
  · intro s target s' h
    unfold ReflowSequence.without at h
    repeat' split at h
    all_goals first
      | exact (make_some _ _ _ _ h).2.1
      | simp at h
  · intro s ins target pos s' h
    unfold ReflowSequence.insert at h
    split at h
    · split at h
      · simp at h
      · split at h
        · simp at h
        · split at h
          · simp at h
          · split at h
            · rename_i hb
              rw [if_pos hb]
              exact (make_some _ _ _ _ h).2.1
            · rename_i hb
              rw [if_neg hb]
              exact (make_some _ _ _ _ h).2.1
    · simp at h
  · intro s traws eraws s' h
    unfold ReflowSequence.replace at h
    split at h
    · simp at h
    · rename_i t0 tl
      dsimp only at h
      cases h1 : rawIndexOf (List.foldr (fun e acc => e.segments ++ acc) [] s.elements) t0 with
      | none => rw [h1] at h; simp at h
      | some start_idx =>
        rw [h1] at h
        dsimp only at h
        cases h2 : rawIndexOf (List.foldr (fun e acc => e.segments ++ acc) [] s.elements)
            ((t0 :: tl).getLastD t0) with
        | none => rw [h2] at h; simp at h
        | some last_idx =>
          rw [h2] at h
          exact (make_some _ _ _ _ h).2.1

theorem c1_mutator_fixes_counterexample :
    exSequenceWithFix.embodied_fixes = [priorFix]
    ∧ exSequenceWithFix.without segONE
        = some ⟨[ReflowElem.block [segSELECT], ReflowElem.point [wsSeg " "],
            ReflowElem.block [segEOF]], exConfig, [LintFix.delete segONE]⟩
    ∧ ¬ [LintFix.delete segONE] = exSequenceWithFix.embodied_fixes ++ [LintFix.delete segONE]
    ∧ priorFix ∉ [LintFix.delete segONE] := by
  decide

theorem c1_mutator_fixes_amended_witness :
    (⟨[ReflowElem.block [segSELECT], ReflowElem.point [wsSeg " "], ReflowElem.block [segEOF]],
        exConfig, [LintFix.delete segONE]⟩ : ReflowSequence).embodied_fixes
      = [LintFix.delete segONE] :=
  c1_mutator_fixes_amended.1 exSequenceWithFix segONE _ (by decide)

theorem match_make_ne_unflushed (e : List ReflowElem) (cfg : ReflowConfig) (f : List LintFix)
    (h : (match ReflowSequence.make e cfg f with
          | some s'' => Except.ok s''
          | none => Except.error ReflowError.invalidSequence)
        = Except.error ReflowError.unflushedFixes) : False := by
  cases hmk : ReflowSequence.make e cfg f with
  | none => rw [hmk] at h; simp at h
  | some s'' => rw [hmk] at h; simp at h

theorem construct_single_indent_ne_unflushed (u : String) (n : Nat)
    (h : construct_single_indent u n = Except.error ReflowError.unflushedFixes) : False := by
  unfold construct_single_indent at h
  repeat' split at h
  all_goals simp at h

/-- C8: `rebreak` and `reindent` fail with the unflushed-fixes error exactly
when the accumulated fix list is non-empty; on an empty fix list neither call
can produce that error (the precondition check passes before either algorithm
runs). -/
theorem c8_unflushed_fixes_precondition (s : ReflowSequence) :
    (s.rebreak = Except.error ReflowError.unflushedFixes ↔ s.embodied_fixes ≠ [])
    ∧ (s.reindent = Except.error ReflowError.unflushedFixes ↔ s.embodied_fixes ≠ []) := by
  constructor
  · constructor
    · intro h
      rcases hfe : s.embodied_fixes with _ | ⟨f, fs⟩
      · exfalso
        unfold ReflowSequence.rebreak at h
        rw [hfe] at h
        repeat' split at h
        all_goals first
          | exact match_make_ne_unflushed _ _ _ h
          | simp_all
      · simp
    · intro hne
      rcases hfe : s.embodied_fixes with _ | ⟨f, fs⟩
      · exact absurd hfe hne
      · unfold ReflowSequence.rebreak
        rw [hfe]
        simp
  · constructor
    · intro h
      rcases hfe : s.embodied_fixes with _ | ⟨f, fs⟩
      · exfalso
        unfold ReflowSequence.reindent at h
        rw [hfe] at h
        repeat' split at h
        all_goals first
          | exact match_make_ne_unflushed _ _ _ h
          | (rename_i e' heq
             simp only [Except.error.injEq] at h
             subst h
             exact construct_single_indent_ne_unflushed _ _ heq)
          | simp_all
      · simp
    · intro hne
      rcases hfe : s.embodied_fixes with _ | ⟨f, fs⟩
      · exact absurd hfe hne
      · unfold ReflowSequence.reindent
        rw [hfe]
        simp

theorem c8_unflushed_fixes_precondition_witness :
    exSequenceWithFix.rebreak = Except.error ReflowError.unflushedFixes :=
  (c8_unflushed_fixes_precondition exSequenceWithFix).1.mpr (by decide)

/-- C10: when a block-uuid group's first and last member lines are adjacent
in the line list (members `i` and `i + 1`, no lines strictly between) and the
members do not share one initial indent balance, the per-group revision takes
the minimum of an empty sequence for the intermediate-line indent limit and
raises `ValueError` — the reconciliation step is not total for such inputs. -/
theorem c10_adjacent_group_not_total (elements : List ReflowElem) (lines : List IndentLine)
    (i : Nat) (l1 l2 : IndentLine)
    (h1 : lines.get? i = some l1) (h2 : lines.get? (i + 1) = some l2)
    (hne : l1.initial_indent_balance ≠ l2.initial_indent_balance) :
    revise_one_group elements lines [i, i + 1] = Except.error ReindentError.emptyMin := by
  unfold revise_one_group
  simp only [List.map_cons, List.map_nil]
  rw [listGetDOfGet? _ _ _ _ h1, listGetDOfGet? _ _ _ _ h2]
  rw [if_neg]
  · simp only [List.headD_cons, List.getLastD_cons, List.getLastD_nil, Nat.sub_self,
      List.take_zero, List.map_nil]
  · simp only [List.all_cons, List.all_nil, Bool.and_true, decide_eq_true_eq]
    intro hc
    exact hne hc.symm

theorem c10_adjacent_group_not_total_witness :
    revise_one_group exElements c10Lines [0, 1] = Except.error ReindentError.emptyMin :=
  c10_adjacent_group_not_total exElements c10Lines 0 ⟨0, []⟩ ⟨1, []⟩ (by decide) (by decide)
    (by decide)

theorem reindent_eq_passes (s : ReflowSequence) (si : String)
    (e1 : List ReflowElem) (f1 : List LintFix) (s' : ReflowSequence)
    (hfix : s.embodied_fixes = [])
    (hsi : construct_single_indent s.reflow_config.indent_unit s.reflow_config.tab_space_size
      = Except.ok si)
    (hlint : lint_indent_points s.elements si = Except.ok (e1, f1))
    (hok : s.reindent = Except.ok s') :
    s'.elements = (lint_line_length e1 si s.reflow_config.max_line_length).1
    ∧ s'.embodied_fixes = f1 ++ (lint_line_length e1 si s.reflow_config.max_line_length).2 := by
  unfold ReflowSequence.reindent at hok
  rw [hfix] at hok
  rw [if_pos (show List.isEmpty ([] : List LintFix) = true from rfl)] at hok
  rw [hsi] at hok
  dsimp only at hok
  rw [hlint] at hok
  dsimp only at hok
  cases hmk : ReflowSequence.make (lint_line_length e1 si s.reflow_config.max_line_length).1
      s.reflow_config (f1 ++ (lint_line_length e1 si s.reflow_config.max_line_length).2) with
  | none => rw [hmk] at hok; simp at hok
  | some s'' =>
    rw [hmk] at hok
    simp only [Except.ok.injEq] at hok
    subst hok
    obtain ⟨he, hf, -⟩ := make_some _ _ _ _ hmk
    exact ⟨he, hf⟩

/-- C2: on a sequence with an empty fix list, `reindent` first runs the
indent pass `lint_indent_points` on the elements, then runs the line-length
pass `lint_line_length` on the elements that pass produced, and returns a
sequence built from the length-pass elements whose fix list is the
indent-pass fixes followed by the length-pass fixes. -/
theorem c2_reindent_two_passes (s : ReflowSequence) (si : String)
    (e1 : List ReflowElem) (f1 : List LintFix) (s' : ReflowSequence)
    (hfix : s.embodied_fixes = [])
    (hsi : construct_single_indent s.reflow_config.indent_unit s.reflow_config.tab_space_size
      = Except.ok si)
    (hlint : lint_indent_points s.elements si = Except.ok (e1, f1))
    (hok : s.reindent = Except.ok s') :
    s'.elements = (lint_line_length e1 si s.reflow_config.max_line_length).1
    ∧ s'.embodied_fixes = f1 ++ (lint_line_length e1 si s.reflow_config.max_line_length).2 :=
  reindent_eq_passes s si e1 f1 s' hfix hsi hlint hok

theorem c2_reindent_two_passes_witness :
    (⟨exElements, exConfig, []⟩ : ReflowSequence).elements
        = (lint_line_length exElements "    " 80).1
    ∧ (⟨exElements, exConfig, []⟩ : ReflowSequence).embodied_fixes
        = [] ++ (lint_line_length exElements "    " 80).2 :=
  c2_reindent_two_passes exSequence "    " exElements [] ⟨exElements, exConfig, []⟩ rfl
    (by decide) (by decide) (by decide)

/-- C9: on a line whose closing balance exceeds its starting balance and
whose closing trough is recorded as untaken, but where no indent point has a
closing balance equal to the closing trough, the evaluation errors out — but
with an `UnboundLocalError`, not the intended invariant-violation error: the
source builds `NotImplementedError("We should always find the relevant
point.")` without `raise`, then reads the never-assigned `target_point_idx`. -/
theorem c9_way_up_unbound_local :
    evaluate_indent_point_buffer exElements c9Line "    " []
      = Except.error ReindentError.unboundLocal := by
  decide

theorem wayDownGo_all_skipped (si : String) :
    ∀ (ips : List IndentPoint) (elements : List ReflowElem) (fixes : List LintFix),
      (∀ ip ∈ ips, ip.is_line_break = true ∨ ip.indent_impulse ≥ 0
        ∨ ip.initial_indent_balance ∈ ip.untaken_indents) →
      wayDownGo si [] ips elements fixes = Except.ok (elements, fixes) := by
  intro ips
  induction ips with
  | nil => intro elements fixes _; rfl
  | cons ip rest ih =>
    intro elements fixes hall
    have hip := hall ip (List.mem_cons_self _ _)
    simp only [wayDownGo]
    by_cases h1 : (ip.is_line_break = true ∨ ip.indent_impulse ≥ 0)
    · rw [if_pos h1]
      exact ih elements fixes (fun x hx => hall x (List.mem_cons_of_mem _ hx))
    · have h3 : ip.initial_indent_balance ∈ ip.untaken_indents := by
        rcases hip with h | h | h
        · exact absurd (Or.inl h) h1
        · exact absurd (Or.inr h) h1
        · exact h
      rw [if_neg h1, if_pos ⟨h3, List.not_mem_nil _⟩]
      exact ih elements fixes (fun x hx => hall x (List.mem_cons_of_mem _ hx))

theorem eval_correct_line (elements : List ReflowElem) (line : IndentLine) (si : String)
    (h : lineIsCorrect elements line si = true) :
    evaluate_indent_point_buffer elements line si [] = Except.ok (elements, [], []) := by
  unfold lineIsCorrect at h
  unfold evaluate_indent_point_buffer
  cases hip : line.indent_points with
  | nil => rw [hip] at h; simp at h
  | cons ip0 rest =>
    rw [hip] at h
    dsimp only at h ⊢
    rw [Bool.and_eq_true, Bool.and_eq_true] at h
    obtain ⟨⟨hcur, hup⟩, hdown⟩ := h
    have hcur' := of_decide_eq_true hcur
    rw [if_neg (not_not_intro hcur')]
    dsimp only
    by_cases hgt :
        ((ip0 :: rest).getLastD ip0).closing_indent_balance > line.initial_indent_balance
    · rw [if_pos hgt] at hup ⊢
      have htr := of_decide_eq_true hup
      rw [if_neg htr]
      rfl
    · rw [if_neg hgt]
      by_cases hlt :
          ((ip0 :: rest).getLastD ip0).closing_indent_balance < line.initial_indent_balance
      · rw [if_pos hlt] at hdown ⊢
        have hskip : ∀ ip ∈ (ip0 :: rest).dropLast,
            ip.is_line_break = true ∨ ip.indent_impulse ≥ 0
              ∨ ip.initial_indent_balance ∈ ip.untaken_indents := by
          intro x hx
          have hx' := (List.all_eq_true.mp hdown) x hx
          have hx2 : (x.is_line_break = true ∨ x.indent_impulse ≥ 0)
              ∨ x.initial_indent_balance ∈ x.untaken_indents := by simpa using hx'
          rcases hx2 with (h'' | h'') | h''
          · exact Or.inl h''
          · exact Or.inr (Or.inl h'')
          · exact Or.inr (Or.inr h'')
        rw [wayDownGo_all_skipped si ((ip0 :: rest).dropLast) elements [] hskip]
        rfl
      · rw [if_neg hlt]
        rfl

theorem evalLines_correct (si : String) (elements : List ReflowElem) :
    ∀ (ls : List IndentLine) (fixes : List LintFix),
      (∀ l ∈ ls, lineIsCorrect elements l si = true) →
      evalLines si ls elements fixes [] = Except.ok (elements, fixes) := by
  intro ls
  induction ls with
  | nil => intro fixes _; rfl
  | cons l rest ih =>
    intro fixes hall
    simp only [evalLines]
    rw [eval_correct_line elements l si (hall l (List.mem_cons_self _ _))]
    dsimp only
    rw [List.append_nil]
    exact ih fixes (fun x hx => hall x (List.mem_cons_of_mem _ hx))

theorem lineLengthStep_noop (si : String) (limit : Nat) (elements : List ReflowElem)
    (fixes : List LintFix) (line : IndentLine)
    (h : line_render_length elements line ≤ limit) :
    lineLengthStep si limit (elements, fixes) line = (elements, fixes) := by
  unfold lineLengthStep
  rw [if_pos h]

theorem lint_line_length_noop_aux (si : String) (limit : Nat) (elements : List ReflowElem) :
    ∀ (ls : List IndentLine) (fixes : List LintFix),
      (∀ l ∈ ls, line_render_length elements l ≤ limit) →
      ls.foldl (lineLengthStep si limit) (elements, fixes) = (elements, fixes) := by
  intro ls
  induction ls with
  | nil => intro fixes _; rfl
  | cons l rest ih =>
    intro fixes hall
    rw [List.foldl_cons, lineLengthStep_noop si limit elements fixes l
      (hall l (List.mem_cons_self _ _))]
    exact ih fixes (fun x hx => hall x (List.mem_cons_of_mem _ hx))

theorem lint_line_length_noop (si : String) (limit : Nat) (elements : List ReflowElem)
    (h : ∀ l ∈ map_line_buffers elements, line_render_length elements l ≤ limit) :
    lint_line_length elements si limit = (elements, []) := by
  unfold lint_line_length
  exact lint_line_length_noop_aux si limit elements (map_line_buffers elements) [] h

/-- C3: on a sequence with an empty fix list whose lines are already
correctly laid out — the revised lines all satisfy `lineIsCorrect` (no
starting-indent correction, no missing break on the way up or down) and every
line fits within the configured maximum length — `reindent` returns a
sequence whose accumulated fix list is empty. -/
theorem c3_reindent_idempotent (s : ReflowSequence) (si : String) (ls : List IndentLine)
    (s' : ReflowSequence)
    (hfix : s.embodied_fixes = [])
    (hsi : construct_single_indent s.reflow_config.indent_unit s.reflow_config.tab_space_size
      = Except.ok si)
    (hrev : revised_lines s.elements = Except.ok ls)
    (hcorrect : ∀ l ∈ ls, lineIsCorrect s.elements l si = true)
    (hlen : ∀ l ∈ map_line_buffers s.elements,
      line_render_length s.elements l ≤ s.reflow_config.max_line_length)
    (hok : s.reindent = Except.ok s') :
    s'.embodied_fixes = [] := by
  have hlint : lint_indent_points s.elements si = Except.ok (s.elements, []) := by
    unfold lint_indent_points
    rw [hrev]
    dsimp only
    exact evalLines_correct si s.elements ls [] hcorrect
  have hll : lint_line_length s.elements si s.reflow_config.max_line_length
      = (s.elements, []) := lint_line_length_noop si _ s.elements hlen
  obtain ⟨-, hf⟩ := reindent_eq_passes s si s.elements [] s' hfix hsi hlint hok
  rw [hll] at hf
  simpa using hf

theorem c3_reindent_idempotent_witness :
    (⟨exElements, exConfig, []⟩ : ReflowSequence).embodied_fixes = [] :=
  c3_reindent_idempotent exSequence "    "
    [⟨0, [⟨3, 0, 0, 0, none, true, []⟩]⟩] ⟨exElements, exConfig, []⟩
    rfl (by decide) (by decide) (by decide) (by decide) (by decide)
